import Mathlib

/-!
Shallow embedding of sbanken-firefly-bridge (src/src/main.rs).

Amounts are modelled as integers (exact currency values).  The Rust code
stores amounts as f64 and only ever negates them, takes absolute values and
compares them; for finite non-NaN doubles these operations are exact, so the
integer model is faithful to every operation the program performs on amounts.
Strings are modelled as Lean strings (lists of chars); the byte-level
operations of the Rust code coincide with the char-level model on ASCII data,
which is the precondition the safety claims state.
-/

namespace SB

variable {α : Type}

/-- A fetched sbanken transaction together with the external id of the account
it was fetched for (the tuple pushed into the needs_deduplication vector in
main.rs).  Fields that main.rs always unwraps are modelled as present. -/
structure Trans where
  accountId : String
  amount : Int
  accountingDate : String
  text : String
  transactionType : String
deriving DecidableEq, Repr

/-- Grouping key of a candidate: (absolute amount, accounting date, text). -/
def key (t : Trans) : Nat × String × String :=
  (t.amount.natAbs, t.accountingDate, t.text)

/-- The comparator of main.rs lines 246-255: by absolute amount, then
accounting date, then text, then signed amount. -/
def cmpCand (a b : Trans) : Ordering :=
  (compare a.amount.natAbs b.amount.natAbs).then
    ((compare a.accountingDate b.accountingDate).then
      ((compare a.text b.text).then (compare a.amount b.amount)))

/-- Not-greater test used to realise the stable sort_by of main.rs. -/
def leCand (a b : Trans) : Bool :=
  cmpCand a b != Ordering.gt

/-- Stable insertion of a candidate (an element inserted before the first
strictly greater element, hence equal elements keep their original order,
exactly as Rust's stable sort_by). -/
def insertCand (x : Trans) : List Trans → List Trans
  | [] => [x]
  | y :: ys => if leCand x y then x :: y :: ys else y :: insertCand x ys

/-- Stable sort of the candidate list, realising needs_deduplication.sort_by. -/
def sortCands : List Trans → List Trans
  | [] => []
  | x :: xs => insertCand x (sortCands xs)

/-- Outputs of the scan of main.rs lines 258-278 over windows(2): given the
previous amount, the running flat counter and the remaining amounts, produce
the per-window scan outputs (0 on a rising or flat edge, the accumulated flat
count on a falling edge). -/
def scanOuts (state : Nat) (prev : Int) : List Int → List Nat
  | [] => []
  | cur :: rest =>
    if cur - prev > 0 then 0 :: scanOuts 0 cur rest
    else if cur - prev < 0 then state :: scanOuts 0 cur rest
    else 0 :: scanOuts (state + 1) cur rest

/-- The flats list of main.rs lines 258-281: enumerated scan outputs filtered
to the strictly positive ones. -/
def computeFlats (l : List Trans) : List (Nat × Nat) :=
  match l.map (fun t => t.amount) with
  | [] => []
  | a :: rest => ((scanOuts 0 a rest).enum).filter (fun p => p.2 > 0)

/-- Vec::swap with bounds checking: none models the index-out-of-bounds
panic. -/
def listSwap (l : List α) (i j : Nat) : Option (List α) :=
  if h : i < l.length ∧ j < l.length then
    some ((l.set i (l.get ⟨j, h.2⟩)).set j (l.get ⟨i, h.1⟩))
  else none

/-- The inner swap loop of main.rs lines 296-299, iterating s upwards for the
given number of remaining steps. -/
def doSwaps (firstIndex shiftAmount : Nat) : Nat → Nat → List α → Option (List α)
  | _, 0, l => some l
  | s, r + 1, l =>
    (listSwap l (firstIndex + 1 + 2 * s) (firstIndex + 1 + 2 * s + shiftAmount)).bind
      (doSwaps firstIndex shiftAmount (s + 1) r)

/-- One iteration of the flats loop of main.rs lines 283-300.  The Rust code
computes first_index by usize subtraction, which panics (debug) or wraps and
then indexes out of bounds (release) when 2*(flat_count+1) exceeds
last_index+1; both outcomes are a panic, modelled as none. -/
def applyFlat (l : List Trans) (flat : Nat × Nat) : Option (List Trans) :=
  let consecutiveDuplicates := flat.2 + 1
  if 2 * consecutiveDuplicates ≤ flat.1 + 1 then
    let firstIndex := flat.1 + 1 - 2 * consecutiveDuplicates
    let shiftAmount :=
      if consecutiveDuplicates % 2 == 1 then consecutiveDuplicates
      else consecutiveDuplicates - 1
    doSwaps firstIndex shiftAmount 0 (consecutiveDuplicates / 2) l
  else none

/-- The whole flats fix-up loop applied in order. -/
def applyFlats : List Trans → List (Nat × Nat) → Option (List Trans)
  | l, [] => some l
  | l, f :: fs => (applyFlat l f).bind (fun m => applyFlats m fs)

/-- Sort the candidates and run the fix-up pass (main.rs lines 246-300);
none models a panic of the fix-up pass. -/
def reconcilePrep (l : List Trans) : Option (List Trans) :=
  let sorted := sortCands l
  applyFlats sorted (computeFlats sorted)

/-- chunks_exact(2): the list of consecutive disjoint pairs. -/
def chunkPairs : List α → List (α × α)
  | a :: b :: rest => (a, b) :: chunkPairs rest
  | _ => []

/-- chunks_exact(2).remainder(): the trailing unpaired element, if any. -/
def chunkRem : List α → Option α
  | [] => none
  | [a] => some a
  | _ :: _ :: rest => chunkRem rest

/-- The balance re-check of main.rs lines 346-349: opposite amounts, equal
text and equal accounting date. -/
def checkPair (p : Trans × Trans) : Bool :=
  p.1.amount == -p.2.amount && p.1.text == p.2.text
    && p.1.accountingDate == p.2.accountingDate

/-- Result of one year's reconciliation pass: the pairs that passed the
balance check and were posted as transfers, the pairs that failed it (warned
and dropped), and the reported leftover remainder element. -/
structure ReconcileOut where
  matched : List (Trans × Trans)
  unbalanced : List (Trans × Trans)
  leftover : Option Trans
deriving DecidableEq, Repr

/-- The reconciler of main.rs lines 246-387 on one year's accumulated
candidate list; none models a panic of the fix-up pass. -/
def reconcile (l : List Trans) : Option ReconcileOut :=
  (reconcilePrep l).map (fun p =>
    { matched := (chunkPairs p).filter checkPair
      unbalanced := (chunkPairs p).filter (fun q => !checkPair q)
      leftover := chunkRem p })

/-- Distinct grouping keys occurring in a candidate list. -/
def keysOf (l : List Trans) : List (Nat × String × String) :=
  (l.map key).dedup

/-- Number of negative-amount candidates of a group. -/
def negIn (k : Nat × String × String) (l : List Trans) : Nat :=
  l.countP (fun t => decide (key t = k ∧ t.amount < 0))

/-- Number of positive-amount candidates of a group. -/
def posIn (k : Nat × String × String) (l : List Trans) : Nat :=
  l.countP (fun t => decide (key t = k ∧ 0 < t.amount))

/-- The pair count the specification predicts: sum over groups of
min(negatives, positives). -/
def expectedPairCount (l : List Trans) : Nat :=
  ((keysOf l).map (fun k => min (negIn k l) (posIn k l))).sum

/-- Build an internal-transfer candidate on a given account with a given
amount, date 2021-03-01 and text Til: Savings. -/
def mkCand (acct : String) (amt : Int) : Trans :=
  { accountId := acct, amount := amt, accountingDate := "2021-03-01",
    text := "Til: Savings", transactionType := "OVFNETTB" }

/-- A candidate list containing one clean transfer pair, used to instantiate
the reconciler theorems at a concrete input. -/
def goodPair : List Trans := [mkCand "A" (-500), mkCand "B" 500]

/-- The reconciler output on goodPair. -/
def goodPairOut : ReconcileOut :=
  { matched := [(mkCand "A" (-500), mkCand "B" 500)], unbalanced := [], leftover := none }

/-- A candidate list on which the pair-count clause of the spec fails: one
group (two debits of 500 and two credits of 500 with equal date and text)
placed at the end of the sorted order, where the fix-up pass never fires. -/
def cexC1 : List Trans :=
  [mkCand "A" (-500), mkCand "B" (-500), mkCand "C" 500, mkCand "D" 500]

/-- A candidate list on which completeness fails: two singleton groups whose
sole chunk fails the balance check, so both candidates are dropped. -/
def cexC2 : List Trans :=
  [mkCand "A" (-500), mkCand "B" 700]

/-- Candidates in any matched or unbalanced pair, flattened in pair order. -/
def flattenPairs (ps : List (α × α)) : List α :=
  ps.flatMap (fun p => [p.1, p.2])

/-! The description normalizer cleanup_description (main.rs lines 398-438).
Strings are modelled as lists of chars; the regex whitespace class and the
Unicode lowercasing of the Rust code agree with Char.isWhitespace and
Char.toLower on the ASCII texts the program handles. -/

/-- Removal of the leading date, the first regex replace of
cleanup_description: the anchored pattern of two digits, a dot, two digits
and a whitespace character is stripped when it heads the text. -/
def stripStartDate (s : List Char) : List Char :=
  match s with
  | a :: b :: c :: d :: e :: f :: rest =>
    if a.isDigit && b.isDigit && c == '.' && d.isDigit && e.isDigit && f.isWhitespace
    then rest else s
  | _ => s

/-- Removal of the trailing pay date: the end-anchored fixed-length pattern
(the literal Betalt:, a whitespace character and a DD.MM.YY date) is matched
against the last sixteen characters, by inspecting the reversed text. -/
def stripPayDate (s : List Char) : List Char :=
  match s.reverse with
  | a :: b :: c :: d :: e :: f :: g :: h :: w :: co :: t1 :: l1 :: a1 :: t2 :: e1 :: b1 :: rest =>
    if a.isDigit && b.isDigit && c == '.' && d.isDigit && e.isDigit && f == '.'
        && g.isDigit && h.isDigit && w.isWhitespace && co == ':' && t1 == 't'
        && l1 == 'l' && a1 == 'a' && t2 == 't' && e1 == 'e' && b1 == 'B'
    then rest.reverse else s
  | _ => s

/-- Repeated removal of a leading Til: label (trim_start_matches). -/
def stripTilAll : List Char → List Char
  | 'T' :: 'i' :: 'l' :: ':' :: ' ' :: rest => stripTilAll rest
  | s => s

/-- Repeated removal of a leading Fra: label (trim_start_matches). -/
def stripFraAll : List Char → List Char
  | 'F' :: 'r' :: 'a' :: ':' :: ' ' :: rest => stripFraAll rest
  | s => s

/-- One element of a regex pattern without captures: a single character of a
class, or a greedy one-or-more repetition of a class. -/
inductive Atom
  | one (p : Char → Bool)
  | many1 (p : Char → Bool)

/-- Length of the maximal leading run of characters satisfying p. -/
def runLen (p : Char → Bool) : List Char → Nat
  | [] => 0
  | c :: cs => if p c then runLen p cs + 1 else 0

/-- The possible remainders after a greedy one-or-more repetition, longest
consumption first (the preference order of leftmost-first regex matching). -/
def many1Suffixes (p : Char → Bool) (s : List Char) : List (List Char) :=
  (List.range (runLen p s)).map (fun i => s.drop (runLen p s - i))

/-- All remainders after matching a sequence of atoms against a prefix of
the text, in leftmost-first preference order. -/
def matchSeq : List Atom → List Char → List (List Char)
  | [], s => [s]
  | Atom.one _ :: _, [] => []
  | Atom.one p :: as, c :: cs => if p c then matchSeq as cs else []
  | Atom.many1 p :: as, s => (many1Suffixes p s).flatMap (matchSeq as)

/-- Word character class of the regex, on ASCII. -/
def isWordChar (c : Char) : Bool := c.isAlphanum || c == '_'

/-- The dot of the regex: any character except a newline. -/
def anyNotNl (c : Char) : Bool := c != '\n'

/-- Case-insensitive literal character test. -/
def ciIs (a : Char) (c : Char) : Bool := c.toLower == a

/-- Atoms of the card-purchase pattern before the merchant capture: a star,
four digits, whitespace, a DD.MM date, whitespace, three word characters,
whitespace, one-or-more digits, any character, two digits, whitespace. -/
def visaHead : List Atom :=
  [.one (· == '*'), .one Char.isDigit, .one Char.isDigit, .one Char.isDigit, .one Char.isDigit,
   .one Char.isWhitespace,
   .one Char.isDigit, .one Char.isDigit, .one (· == '.'), .one Char.isDigit, .one Char.isDigit,
   .one Char.isWhitespace,
   .one isWordChar, .one isWordChar, .one isWordChar,
   .one Char.isWhitespace,
   .many1 Char.isDigit, .one anyNotNl, .one Char.isDigit, .one Char.isDigit,
   .one Char.isWhitespace]

/-- Atoms of the card-purchase pattern after the merchant capture:
whitespace, the case-insensitive literal Kurs with a colon, whitespace and a
rate of digits, any character, digits, anchored at the end. -/
def visaTail : List Atom :=
  [.one Char.isWhitespace, .one (ciIs 'k'), .one (ciIs 'u'), .one (ciIs 'r'), .one (ciIs 's'),
   .one (· == ':'), .one Char.isWhitespace, .many1 Char.isDigit, .one anyNotNl,
   .many1 Char.isDigit]

/-- Lazy expansion of the merchant capture: grow the captured text one
character at a time (shortest first, the preference of a lazy one-or-more)
until the tail atoms consume the whole remainder. -/
def capSearch (tailAtoms : List Atom) (acc : List Char) : List Char → Option (List Char)
  | [] => none
  | c :: cs =>
    if c == '\n' then none
    else if (matchSeq tailAtoms cs).any List.isEmpty then some (acc ++ [c])
    else capSearch tailAtoms (acc ++ [c]) cs

/-- The merchant segment captured by the card-purchase regex, if the whole
anchored pattern matches. -/
def visaCapture (s : List Char) : Option (List Char) :=
  (matchSeq visaHead s).findSome? (fun suffix => capSearch visaTail [] suffix)

/-- Replace a card-purchase text with its captured merchant segment. -/
def applyVisa (s : List Char) : List Char :=
  match visaCapture s with
  | some cap => cap
  | none => s

/-- Does the lowercased text start with the given lowercase literal. -/
def lowerStartsWith (p : List Char) (s : List Char) : Bool :=
  p.isPrefixOf (s.map Char.toLower)

/-- The six case-insensitive known-merchant prefix replacements, applied in
the order of the source. -/
def applyMerchants (s : List Char) : List Char :=
  let s := if lowerStartsWith "skimore".toList s then "Skimore".toList else s
  let s := if lowerStartsWith "starbucks".toList s then "Starbucks".toList else s
  let s := if lowerStartsWith "steam".toList s then "Steam".toList else s
  let s := if lowerStartsWith "domeneshop".toList s then "Domeneshop".toList else s
  let s := if lowerStartsWith "hokksund sushi og thai".toList s then
    "Hokksund Sushi og Thai".toList else s
  let s := if lowerStartsWith "tekna".toList s then "TEKNA".toList else s
  s

/-- str::trim: drop whitespace from both ends. -/
def trimChars (s : List Char) : List Char :=
  ((s.dropWhile Char.isWhitespace).reverse.dropWhile Char.isWhitespace).reverse

/-- The first five transformation stages of cleanup_description, before the
final trim. -/
def stages15 (s : List Char) : List Char :=
  applyMerchants (applyVisa (stripFraAll (stripTilAll (stripPayDate (stripStartDate s)))))

/-- cleanup_description of main.rs on char lists: the five stages followed
by the trim. -/
def cleanupDescription (s : List Char) : List Char :=
  trimChars (stages15 s)

/-- cleanup_description on strings. -/
def cleanup_description (s : String) : String :=
  String.mk (cleanupDescription s.data)

/-! Posting conversion (main.rs convert_transaction, lines 440-483). -/

/-- A firefly asset account as the conversion uses it: its numeric id (the
Rust code parses the string id of the AccountRead) and its name. -/
structure Account where
  id : Int
  name : String
deriving DecidableEq, Repr

/-- The transaction type of a posting split. -/
inductive PostingType
  | withdrawal
  | deposit
  | transfer
deriving DecidableEq, Repr

/-- One firefly transaction split as convert_transaction builds it.  The
amount is the absolute value of the source amount (the Rust code formats it
with two decimals). -/
structure Posting where
  date : String
  amount : Nat
  description : String
  postingType : Option PostingType
  sourceId : Option Int
  sourceName : Option String
  destId : Option Int
  destName : Option String
  categoryName : Option String
deriving DecidableEq, Repr

/-- convert_transaction of main.rs: build the single posting split of the
firefly transaction.  The accounting-date string is byte-sliced to its first
ten elements unconditionally in the source; on a shorter string that slice
panics, modelled as none. -/
def convert_transaction (mainAcc : Account) (t : Trans) (other : Option Account) :
    Option Posting :=
  if 10 ≤ t.accountingDate.length then
    let base : Posting :=
      { date := String.mk (t.accountingDate.data.take 10)
        amount := t.amount.natAbs
        description := t.text
        postingType := none
        sourceId := none
        sourceName := none
        destId := none
        destName := none
        categoryName := some t.transactionType }
    some (if t.amount < 0 then
      match other with
      | some toAcc =>
        { base with
            postingType := some PostingType.transfer
            sourceId := some mainAcc.id
            destId := some toAcc.id }
      | none =>
        { base with
            postingType := some PostingType.withdrawal
            sourceId := some mainAcc.id
            destName := some (cleanup_description t.text) }
    else
      match other with
      | some toAcc =>
        { base with
            postingType := some PostingType.transfer
            destId := some mainAcc.id
            sourceId := some toAcc.id }
      | none =>
        { base with
            postingType := some PostingType.deposit
            destId := some mainAcc.id
            sourceName := some (cleanup_description t.text) })
  else none

/-- Outcome of the per-transaction dispatch of the year loop. -/
inductive Handled
  | internal
  | posted (p : Posting)
deriving DecidableEq, Repr

/-- Is the transaction type code one of the three internal-transfer codes
(main.rs lines 197-199). -/
def isInternalType (c : String) : Bool :=
  c == "OVFNETTB" || c == "MOB.B.OVF" || c == "TILBAKEF."

/-- The per-transaction dispatch of main.rs lines 196-242: an internal
transfer code sends the transaction to the deduplication set (after logging
that slices the accounting date, which panics on a short date, modelled as
none); any other code is converted to a direct posting. -/
def handleTransaction (acc : Account) (t : Trans) : Option Handled :=
  if isInternalType t.transactionType then
    if 10 ≤ t.accountingDate.length then some Handled.internal else none
  else
    (convert_transaction acc t none).map Handled.posted

/-- The scenario-2 card purchase: minus 42.50 (in hundredths), a VISA code
and a text with a leading date and a trailing pay date. -/
def kiwiCand : Trans :=
  { accountId := "A", amount := -4250, accountingDate := "2021-03-01",
    text := "12.02 KIWI OSLO Betalt: 01.03.21", transactionType := "VISA" }

/-- A transaction whose accounting date is shorter than ten characters. -/
def shortDateCand : Trans :=
  { accountId := "A", amount := -500, accountingDate := "2021",
    text := "x", transactionType := "VISA" }

/-! The sync orchestrator (main.rs lines 114-168 and 390-395).  Calendar
dates are modelled structurally; the arithmetic producing today minus
delayDays happens before the modelled fragment and its result is an input. -/

/-- A calendar date. -/
structure Date where
  year : Int
  month : Nat
  day : Nat
deriving DecidableEq, Repr

/-- January the 1st of a year, the generic lower fetch bound. -/
def jan1 (y : Int) : Date := ⟨y, 1, 1⟩

/-- December the 31st of a year, the generic upper fetch bound. -/
def dec31 (y : Int) : Date := ⟨y, 12, 31⟩

/-- The inclusive year range of the Rust for loop, empty when the bounds are
inverted. -/
def yearRange (a b : Int) : List Int :=
  (List.range (b + 1 - a).toNat).map (fun (i : Nat) => a + (i : Int))

/-- The year iteration of main.rs lines 133-168 together with the clipped
per-account fetch window passed to get_transactions for each year: the first
year starts at the previous checkpoint (or January the 1st when there is
none), the last year ends at the last sync day (today minus delayDays), and
all other bounds are the calendar year's edges. -/
def syncPlan (firstSyncDay : Option Date) (firstYearOpt : Int) (lastSyncDay : Date) :
    List (Int × Date × Date) :=
  let actualFirstYear := (firstSyncDay.map Date.year).getD firstYearOpt
  let actualLastYear := lastSyncDay.year
  (yearRange actualFirstYear actualLastYear).map (fun year =>
    (year,
     if year = actualFirstYear then firstSyncDay.getD (jan1 year) else jan1 year,
     if year = actualLastYear then lastSyncDay else dec31 year))

/-- Result of one get_transactions call: a transport-level failure (which
the question-mark operator turns into a fatal abort) or a response carrying
the optional isError flag, the optional errorMessage and the items. -/
inductive FetchResult
  | transportError
  | response (isError : Option Bool) (errorMessage : Option String) (items : List Trans)
deriving DecidableEq, Repr

/-- The run environment: the parsed checkpoint, the last sync day (today
minus delayDays), the configured first year, the sbanken account ids and the
response of each per-year per-account fetch. -/
structure Env where
  checkpoint : Option Date
  lastSyncDay : Date
  firstYearOpt : Int
  accounts : List String
  fetch : Int → String → FetchResult

/-- Observable effects of a run, in order. -/
inductive Effect
  | fetched (year : Int) (account : String)
  | skippedAccount (year : Int) (account : String)
  | processedAccount (year : Int) (account : String)
  | wroteCheckpoint (d : Date)
deriving DecidableEq, Repr

/-- Is the effect a checkpoint write. -/
def isWrite : Effect → Bool
  | Effect.wroteCheckpoint _ => true
  | _ => false

/-- The fetch loop over (year, account) pairs, main.rs lines 144-178: a
transport error aborts the run at once; a response with isError true or
absent takes the skip branch, which logs the unwrapped error message before
continuing — when the response carries no error message that unwrap panics
and aborts the whole run (line 175); otherwise the account's transactions
are processed. -/
def runPairs (env : Env) : List (Int × String) → List Effect × Bool
  | [] => ([], true)
  | (y, a) :: rest =>
    match env.fetch y a with
    | FetchResult.transportError => ([Effect.fetched y a], false)
    | FetchResult.response isErr errMsg _ =>
      if isErr.getD true then
        match errMsg with
        | some _ =>
          (Effect.fetched y a :: Effect.skippedAccount y a :: (runPairs env rest).1,
           (runPairs env rest).2)
        | none => ([Effect.fetched y a], false)
      else
        (Effect.fetched y a :: Effect.processedAccount y a :: (runPairs env rest).1,
         (runPairs env rest).2)

/-- The (year, account) pairs the year and account loops visit, outer loop
over years, inner loop over accounts. -/
def syncPairs (env : Env) : List (Int × String) :=
  (yearRange ((env.checkpoint.map Date.year).getD env.firstYearOpt)
    env.lastSyncDay.year).flatMap (fun y => env.accounts.map (fun a => (y, a)))

/-- The checkpoint discipline of main.rs: line 128 returns early when the
checkpoint equals the last sync day; the loop then runs, and the checkpoint
file is written once, to the last sync day, only after the whole loop
finished without a fatal error (line 390). -/
def mainModel (env : Env) : List Effect × Bool :=
  if env.checkpoint = some env.lastSyncDay then ([], true)
  else if (runPairs env (syncPairs env)).2 then
    ((runPairs env (syncPairs env)).1 ++ [Effect.wroteCheckpoint env.lastSyncDay], true)
  else ((runPairs env (syncPairs env)).1, false)

/-- A run environment whose checkpoint equals the last sync day. -/
def envNoop : Env :=
  { checkpoint := some ⟨2021, 5, 1⟩, lastSyncDay := ⟨2021, 5, 1⟩,
    firstYearOpt := 2019, accounts := ["A"],
    fetch := fun _ _ => FetchResult.response (some false) none [] }

/-- A run environment with no checkpoint and error-free fetches. -/
def envOk : Env :=
  { checkpoint := none, lastSyncDay := ⟨2021, 5, 1⟩,
    firstYearOpt := 2021, accounts := ["A"],
    fetch := fun _ _ => FetchResult.response (some false) none [] }

/-- A run environment whose fetch for account A reports isError together
with an error message. -/
def envErr : Env :=
  { checkpoint := none, lastSyncDay := ⟨2021, 5, 1⟩,
    firstYearOpt := 2021, accounts := ["A", "B"],
    fetch := fun _ a => if a == "A" then FetchResult.response (some true) (some "boom") []
      else FetchResult.response (some false) none [] }

/-- A run environment whose fetch for account A reports isError but carries
no error message, the input on which the skip branch panics. -/
def envPanic : Env :=
  { checkpoint := none, lastSyncDay := ⟨2021, 5, 1⟩,
    firstYearOpt := 2021, accounts := ["A", "B"],
    fetch := fun _ a => if a == "A" then FetchResult.response (some true) none []
      else FetchResult.response (some false) none [] }

/-! Permutation facts: every stage of the reconciler preparation only
rearranges the candidate list. -/

theorem insertCand_perm (x : Trans) : ∀ l : List Trans, List.Perm (insertCand x l) (x :: l)
  | [] => List.Perm.refl _
  | y :: ys => by
    by_cases h : leCand x y
    · simp [insertCand, h]
    · simp only [insertCand, if_neg h]
      exact ((insertCand_perm x ys).cons y).trans (List.Perm.swap x y ys)

theorem sortCands_perm : ∀ l : List Trans, List.Perm (sortCands l) l
  | [] => List.Perm.refl _
  | x :: xs => (insertCand_perm x (sortCands xs)).trans ((sortCands_perm xs).cons x)

theorem get_cons_set_perm (a : α) : ∀ (t : List α) (k : Nat) (hk : k < t.length),
    List.Perm (t.get ⟨k, hk⟩ :: t.set k a) (a :: t)
  | [], k, hk => ((Nat.not_lt_zero k) hk).elim
  | b :: s, 0, _ => List.Perm.swap a b s
  | b :: s, k + 1, hk =>
    (List.Perm.swap b (s.get ⟨k, Nat.lt_of_succ_lt_succ hk⟩) (s.set k a)).trans
      (((get_cons_set_perm a s k (Nat.lt_of_succ_lt_succ hk)).cons b).trans
        (List.Perm.swap a b s))

theorem swap_set_perm : ∀ (l : List α) (i j : Nat) (hi : i < l.length) (hj : j < l.length),
    List.Perm ((l.set i (l.get ⟨j, hj⟩)).set j (l.get ⟨i, hi⟩)) l
  | [], i, _, hi, _ => ((Nat.not_lt_zero i) hi).elim
  | _ :: _, 0, 0, _, _ => List.Perm.refl _
  | a :: t, 0, j + 1, _, hj => get_cons_set_perm a t j (Nat.lt_of_succ_lt_succ hj)
  | a :: t, i + 1, 0, hi, _ => get_cons_set_perm a t i (Nat.lt_of_succ_lt_succ hi)
  | a :: t, i + 1, j + 1, hi, hj =>
    (swap_set_perm t i j (Nat.lt_of_succ_lt_succ hi) (Nat.lt_of_succ_lt_succ hj)).cons a

theorem listSwap_perm {l m : List α} {i j : Nat} (h : listSwap l i j = some m) :
    List.Perm m l := by
  by_cases hc : i < l.length ∧ j < l.length
  · simp only [listSwap, dif_pos hc, Option.some.injEq] at h
    exact h ▸ swap_set_perm l i j hc.1 hc.2
  · simp [listSwap, dif_neg hc] at h

theorem doSwaps_perm : ∀ (fi sa s r : Nat) (l m : List α), doSwaps fi sa s r l = some m →
    List.Perm m l
  | _, _, _, 0, l, m, h => by
    simp only [doSwaps, Option.some.injEq] at h
    exact h ▸ List.Perm.refl l
  | fi, sa, s, r + 1, l, m, h => by
    simp only [doSwaps, Option.bind_eq_some] at h
    obtain ⟨mid, hmid, hrest⟩ := h
    exact (doSwaps_perm fi sa (s + 1) r mid m hrest).trans (listSwap_perm hmid)

theorem applyFlat_perm {l m : List Trans} {f : Nat × Nat} (h : applyFlat l f = some m) :
    List.Perm m l := by
  unfold applyFlat at h
  dsimp only at h
  split at h
  · exact doSwaps_perm _ _ 0 _ l m h
  · exact absurd h (by simp)

theorem applyFlats_perm : ∀ (fs : List (Nat × Nat)) (l m : List Trans),
    applyFlats l fs = some m → List.Perm m l
  | [], l, m, h => by
    simp only [applyFlats, Option.some.injEq] at h
    exact h ▸ List.Perm.refl l
  | f :: fs, l, m, h => by
    simp only [applyFlats, Option.bind_eq_some] at h
    obtain ⟨mid, hmid, hrest⟩ := h
    exact (applyFlats_perm fs mid m hrest).trans (applyFlat_perm hmid)

theorem reconcilePrep_perm {l p : List Trans} (h : reconcilePrep l = some p) :
    List.Perm p l :=
  (applyFlats_perm _ _ _ h).trans (sortCands_perm l)

/-! Decomposition of the chunking pass. -/

theorem chunk_decomp : ∀ l : List α,
    flattenPairs (chunkPairs l) ++ (chunkRem l).toList = l
  | [] => rfl
  | [_] => rfl
  | a :: b :: rest => by
    show a :: b :: (flattenPairs (chunkPairs rest) ++ (chunkRem rest).toList) = a :: b :: rest
    rw [chunk_decomp rest]

theorem chunkRem_isSome : ∀ l : List α, (chunkRem l).isSome = decide (l.length % 2 = 1)
  | [] => rfl
  | [_] => rfl
  | _ :: _ :: rest => by
    show (chunkRem rest).isSome = decide ((rest.length + 1 + 1) % 2 = 1)
    rw [chunkRem_isSome rest]
    exact decide_eq_decide.mpr (by omega)

theorem mem_of_mem_chunkPairs : ∀ {l : List α} {p : α × α}, p ∈ chunkPairs l →
    p.1 ∈ l ∧ p.2 ∈ l
  | [], _, h => absurd h (List.not_mem_nil _)
  | [_], _, h => absurd h (List.not_mem_nil _)
  | a :: b :: rest, p, h => by
    rcases List.mem_cons.mp h with h | h
    · subst h
      exact ⟨List.mem_cons_self _ _, List.mem_cons_of_mem _ (List.mem_cons_self _ _)⟩
    · have hm := mem_of_mem_chunkPairs h
      exact ⟨List.mem_cons_of_mem _ (List.mem_cons_of_mem _ hm.1),
        List.mem_cons_of_mem _ (List.mem_cons_of_mem _ hm.2)⟩

/-! Facts about the balance re-check. -/

theorem checkPair_spec {p : Trans × Trans} (h : checkPair p = true) :
    p.1.amount = -p.2.amount ∧ p.1.text = p.2.text ∧
      p.1.accountingDate = p.2.accountingDate := by
  simp only [checkPair, Bool.and_eq_true, beq_iff_eq] at h
  exact ⟨h.1.1, h.1.2, h.2⟩

theorem key_eq_of_checkPair {p : Trans × Trans} (h : checkPair p = true) :
    key p.2 = key p.1 := by
  obtain ⟨ha, ht, hd⟩ := checkPair_spec h
  simp only [key, ha, Int.natAbs_neg, ht, hd]

/-- Within one group, the pairs that pass the balance check consume one
negative and one positive candidate each, so their number is bounded by both
group tallies. -/
theorem matched_countP_le (k : Nat × String × String) :
    ∀ P : List Trans, (∀ t ∈ P, t.amount ≠ 0) →
      ((chunkPairs P).filter checkPair).countP (fun p => decide (key p.1 = k)) ≤ negIn k P ∧
      ((chunkPairs P).filter checkPair).countP (fun p => decide (key p.1 = k)) ≤ posIn k P
  | [], _ => ⟨Nat.zero_le _, Nat.zero_le _⟩
  | [_], _ => ⟨Nat.zero_le _, Nat.zero_le _⟩
  | a :: b :: rest, hnz => by
    obtain ⟨ihn, ihp⟩ := matched_countP_le k rest
      (fun t ht => hnz t (List.mem_cons_of_mem _ (List.mem_cons_of_mem _ ht)))
    simp only [chunkPairs, List.filter_cons, negIn, posIn, List.countP_cons,
      decide_eq_true_eq] at *
    by_cases hcp : checkPair (a, b) = true
    · have hkb : key b = key a := key_eq_of_checkPair hcp
      have hamt : a.amount = -b.amount := (checkPair_spec hcp).1
      simp only [hcp, if_true]
      simp only [List.countP_cons, decide_eq_true_eq]
      by_cases hk : key a = k
      · have hnza : a.amount ≠ 0 := hnz a (List.mem_cons_self _ _)
        rw [if_pos hk]
        rcases lt_or_gt_of_ne hnza with hneg | hpos
        · have h1 : (key a = k ∧ a.amount < 0) := ⟨hk, hneg⟩
          have h2 : ¬(key b = k ∧ b.amount < 0) := fun hb => by omega
          have h3 : ¬(key a = k ∧ 0 < a.amount) := fun hb => by omega
          have h4 : (key b = k ∧ 0 < b.amount) := ⟨hkb.trans hk, by omega⟩
          rw [if_pos h1, if_neg h2, if_neg h3, if_pos h4]
          omega
        · have h1 : ¬(key a = k ∧ a.amount < 0) := fun hb => by omega
          have h2 : (key b = k ∧ b.amount < 0) := ⟨hkb.trans hk, by omega⟩
          have h3 : (key a = k ∧ 0 < a.amount) := ⟨hk, hpos⟩
          have h4 : ¬(key b = k ∧ 0 < b.amount) := fun hb => by omega
          rw [if_neg h1, if_pos h2, if_pos h3, if_neg h4]
          omega
      · rw [if_neg hk]
        omega
    · simp only [Bool.not_eq_true] at hcp
      simp only [hcp, Bool.false_eq_true, if_false]
      omega

/-! Counting a list by the fibers of a key function. -/

theorem sum_map_add {κ : Type} (K : List κ) (f g : κ → Nat) :
    (K.map (fun k => f k + g k)).sum = (K.map f).sum + (K.map g).sum := by
  induction K with
  | nil => rfl
  | cons k K ih => simp only [List.map_cons, List.sum_cons, ih]; omega

theorem sum_indicator_zero {κ : Type} [DecidableEq κ] {c : κ} :
    ∀ {K : List κ}, c ∉ K → (K.map (fun k => if c = k then 1 else 0)).sum = 0
  | [], _ => rfl
  | k :: K, h => by
    have hne : ¬c = k := fun hc => h (hc ▸ List.mem_cons_self _ _)
    simp only [List.map_cons, List.sum_cons, if_neg hne,
      sum_indicator_zero (fun hc => h (List.mem_cons_of_mem _ hc))]

theorem sum_indicator_one {κ : Type} [DecidableEq κ] {c : κ} :
    ∀ {K : List κ}, K.Nodup → c ∈ K → (K.map (fun k => if c = k then 1 else 0)).sum = 1
  | [], _, h => absurd h (List.not_mem_nil _)
  | k :: K, hnd, h => by
    rcases List.mem_cons.mp h with h | h
    · simp only [List.map_cons, List.sum_cons, if_pos h,
        sum_indicator_zero (h ▸ (List.nodup_cons.mp hnd).1)]
    · have hne : ¬c = k := fun hc => (List.nodup_cons.mp hnd).1 (hc ▸ h)
      simp only [List.map_cons, List.sum_cons, if_neg hne,
        sum_indicator_one (List.nodup_cons.mp hnd).2 h]

theorem length_eq_sum_fiber {β κ : Type} [DecidableEq κ] (keyFn : β → κ) :
    ∀ (xs : List β) (K : List κ), K.Nodup → (∀ x ∈ xs, keyFn x ∈ K) →
      xs.length = (K.map (fun k => xs.countP (fun x => decide (keyFn x = k)))).sum
  | [], K, _, _ => by simp
  | x :: xs, K, hnd, hmem => by
    have ih := length_eq_sum_fiber keyFn xs K hnd
      (fun y hy => hmem y (List.mem_cons_of_mem _ hy))
    simp only [List.countP_cons, decide_eq_true_eq, List.length_cons]
    rw [sum_map_add K (fun k => xs.countP (fun y => decide (keyFn y = k)))
      (fun k => if keyFn x = k then 1 else 0), ← ih,
      sum_indicator_one hnd (hmem x (List.mem_cons_self _ _))]

/-- The two halves of a filter split of the pair list cover its flattening,
up to reordering. -/
theorem flattenPairs_filter_perm (q : α × α → Bool) : ∀ ps : List (α × α),
    List.Perm (flattenPairs (ps.filter q) ++ flattenPairs (ps.filter (fun p => !q p)))
      (flattenPairs ps)
  | [] => List.Perm.refl _
  | p :: ps => by
    by_cases hq : q p = true
    · simp only [List.filter_cons, hq, if_true, Bool.not_true, Bool.false_eq_true, if_false]
      show List.Perm (p.1 :: p.2 :: (flattenPairs (ps.filter q) ++
        flattenPairs (ps.filter (fun r => !q r)))) (p.1 :: p.2 :: flattenPairs ps)
      exact ((flattenPairs_filter_perm q ps).cons p.2).cons p.1
    · simp only [List.filter_cons, hq, Bool.not_eq_true] at *
      simp only [hq, Bool.false_eq_true, if_false, Bool.not_false, if_true]
      show List.Perm (flattenPairs (ps.filter q) ++ (p.1 :: p.2 ::
        flattenPairs (ps.filter (fun r => !q r)))) (p.1 :: p.2 :: flattenPairs ps)
      refine List.perm_middle.trans ?_
      refine (List.Perm.cons p.1 List.perm_middle).trans ?_
      exact ((flattenPairs_filter_perm q ps).cons p.2).cons p.1

/-! Idempotence of the final trim. -/

theorem dropWhile_head_false {p : α → Bool} : ∀ {l : List α} {c : α} {rest : List α},
    l.dropWhile p = c :: rest → p c = false
  | [], _, _, h => by simp at h
  | a :: l, c, rest, h => by
    by_cases hp : p a = true
    · rw [List.dropWhile_cons, if_pos hp] at h
      exact dropWhile_head_false h
    · rw [List.dropWhile_cons, if_neg hp] at h
      injection h with h1 _
      subst h1
      simp only [Bool.not_eq_true] at hp
      exact hp

theorem dropWhile_dropWhile (p : α → Bool) : ∀ l : List α,
    (l.dropWhile p).dropWhile p = l.dropWhile p
  | [] => rfl
  | a :: l => by
    by_cases hp : p a = true
    · rw [List.dropWhile_cons, if_pos hp]
      exact dropWhile_dropWhile p l
    · rw [List.dropWhile_cons, if_neg hp, List.dropWhile_cons, if_neg hp]

theorem trimChars_trimChars (s : List Char) : trimChars (trimChars s) = trimChars s := by
  have key : ∀ a : List Char, (∃ z : List Char, a = z.dropWhile Char.isWhitespace) →
      trimChars ((a.reverse.dropWhile Char.isWhitespace).reverse) =
        (a.reverse.dropWhile Char.isWhitespace).reverse := by
    rintro a ⟨z, hz⟩
    have h1 : (a.reverse.dropWhile Char.isWhitespace).reverse.dropWhile Char.isWhitespace =
        (a.reverse.dropWhile Char.isWhitespace).reverse := by
      cases hrr : (a.reverse.dropWhile Char.isWhitespace).reverse with
      | nil => rfl
      | cons c rest =>
        have hsplit : a.reverse.takeWhile Char.isWhitespace ++
            a.reverse.dropWhile Char.isWhitespace = a.reverse :=
          List.takeWhile_append_dropWhile Char.isWhitespace a.reverse
        have ha : a = (a.reverse.dropWhile Char.isWhitespace).reverse ++
            (a.reverse.takeWhile Char.isWhitespace).reverse := by
          conv_lhs => rw [← a.reverse_reverse, ← hsplit]
          rw [List.reverse_append]
        rw [hrr, List.cons_append] at ha
        have hzc : z.dropWhile Char.isWhitespace = c ::
            (rest ++ (a.reverse.takeWhile Char.isWhitespace).reverse) := by
          rw [← hz]; exact ha
        have hc : Char.isWhitespace c = false := dropWhile_head_false hzc
        rw [List.dropWhile_cons, if_neg (by simp [hc])]
    show ((((a.reverse.dropWhile Char.isWhitespace).reverse).dropWhile
      Char.isWhitespace).reverse.dropWhile Char.isWhitespace).reverse =
        (a.reverse.dropWhile Char.isWhitespace).reverse
    rw [h1, List.reverse_reverse, dropWhile_dropWhile]
  exact key (s.dropWhile Char.isWhitespace) ⟨s, rfl⟩

/-! Claim theorems. -/

/-- C1, counterexample: on a candidate list whose only group holds two
debits and two credits of 500 with equal date and text, the reconciler emits
zero matched pairs although the sum over groups of min(negatives, positives)
is 2, so the claimed pair-count equality fails on the code. -/
theorem reconcile_pair_count_not_exact_on_cexC1 :
    (reconcile cexC1).map (fun o => o.matched.length) = some 0 ∧
      expectedPairCount cexC1 = 2 := by decide

/-- C1, amended: whenever the reconciler terminates without a panic on a
candidate list of nonzero amounts, every emitted matched pair consists of two
candidates whose amounts sum to exactly zero and whose accounting date and
text are identical, and the number of emitted matched pairs is at most (not
exactly) the sum over groups keyed by (abs amount, accounting date, text) of
min(number of negative candidates, number of positive candidates). -/
theorem reconcile_pairs_balanced_and_bounded
    (l : List Trans) (out : ReconcileOut)
    (hnz : ∀ t ∈ l, t.amount ≠ 0) (h : reconcile l = some out) :
    (∀ p ∈ out.matched,
      p.1.amount + p.2.amount = 0 ∧ p.1.accountingDate = p.2.accountingDate ∧
        p.1.text = p.2.text) ∧
    out.matched.length ≤ expectedPairCount l := by
  obtain ⟨P, hP, hout⟩ := Option.map_eq_some'.mp h
  have hperm := reconcilePrep_perm hP
  have hnzP : ∀ t ∈ P, t.amount ≠ 0 := fun t ht => hnz t (hperm.mem_iff.mp ht)
  have hmout : out.matched = (chunkPairs P).filter checkPair := by rw [← hout]
  constructor
  · intro p hp
    rw [hmout] at hp
    obtain ⟨ha, ht, hd⟩ := checkPair_spec (List.mem_filter.mp hp).2
    exact ⟨by omega, hd, ht⟩
  · rw [hmout]
    have hKmem : ∀ p ∈ (chunkPairs P).filter checkPair, key p.1 ∈ keysOf l := by
      intro p hp
      have h1 : p.1 ∈ P := (mem_of_mem_chunkPairs (List.mem_filter.mp hp).1).1
      exact List.mem_dedup.mpr (List.mem_map_of_mem key (hperm.mem_iff.mp h1))
    rw [length_eq_sum_fiber (fun p => key p.1) ((chunkPairs P).filter checkPair)
      (keysOf l) (List.nodup_dedup _) hKmem]
    refine List.sum_le_sum ?_
    intro k _
    have hb := matched_countP_le k P hnzP
    have e1 : negIn k P = negIn k l := hperm.countP_eq _
    have e2 : posIn k P = posIn k l := hperm.countP_eq _
    exact le_min (e1 ▸ hb.1) (e2 ▸ hb.2)

/-- C1, witness: on a clean single-pair input the reconciler emits one
balanced pair, within the group bound. -/
theorem reconcile_pairs_balanced_and_bounded_witness :
    (mkCand "A" (-500)).amount + (mkCand "B" 500).amount = 0 ∧
      goodPairOut.matched.length ≤ expectedPairCount goodPair := by
  have h := reconcile_pairs_balanced_and_bounded goodPair goodPairOut
    (by decide) (by decide)
  exact ⟨(h.1 (mkCand "A" (-500), mkCand "B" 500) (by decide)).1, h.2⟩

/-- C2, counterexample: on two candidates of amounts -500 and 700 with equal
date and text, the sole chunk fails the balance re-check and both candidates
are dropped with a warning: the matched list and the reported leftover are
both empty although the input is not, so the claimed matched-or-leftover
partition fails on the code. -/
theorem reconcile_drops_unbalanced_on_cexC2 :
    (reconcile cexC2).map (fun o => (o.matched, o.leftover)) = some ([], none) ∧
      cexC2.length = 2 := by decide

/-- C2, amended: whenever the reconciler terminates without a panic, the
candidates of the matched pairs, the candidates of the unbalanced pairs that
are warned about and dropped, and the single reported leftover element
together form a permutation of the input candidate list (each candidate ends
up in exactly one of the three, counted with multiplicity), and a leftover is
reported exactly when the number of candidates is odd. -/
theorem reconcile_partition (l : List Trans) (out : ReconcileOut)
    (h : reconcile l = some out) :
    List.Perm (flattenPairs out.matched ++ flattenPairs out.unbalanced ++
      out.leftover.toList) l ∧
    out.leftover.isSome = decide (l.length % 2 = 1) := by
  obtain ⟨P, hP, hout⟩ := Option.map_eq_some'.mp h
  have hperm := reconcilePrep_perm hP
  have hmout : out.matched = (chunkPairs P).filter checkPair := by rw [← hout]
  have huout : out.unbalanced = (chunkPairs P).filter (fun q => !checkPair q) := by
    rw [← hout]
  have hlout : out.leftover = chunkRem P := by rw [← hout]
  constructor
  · rw [hmout, huout, hlout]
    refine List.Perm.trans ?_ hperm
    refine List.Perm.trans ((flattenPairs_filter_perm checkPair (chunkPairs P)).append_right
      (chunkRem P).toList) ?_
    rw [chunk_decomp P]
  · rw [hlout, chunkRem_isSome P, hperm.length_eq]

/-- C2, witness: on a clean single-pair input the matched pair accounts for
both candidates and no leftover is reported. -/
theorem reconcile_partition_witness :
    List.Perm (flattenPairs goodPairOut.matched ++ flattenPairs goodPairOut.unbalanced ++
      goodPairOut.leftover.toList) goodPair ∧
    goodPairOut.leftover.isSome = decide (goodPair.length % 2 = 1) :=
  reconcile_partition goodPair goodPairOut (by decide)

/-- C5: the normalizer applies its rules in the source order.  The claimed
scenario input with a leading date and a trailing pay date normalizes to
KIWI OSLO; a Til: label is stripped; a card-purchase text is replaced by its
captured merchant segment; a known merchant prefix is replaced
case-insensitively by the canonical name; surrounding whitespace is
trimmed. -/
theorem cleanup_description_rules :
    cleanup_description "12.02 KIWI OSLO Betalt: 01.03.21" = "KIWI OSLO" ∧
    cleanup_description "Til: Savings" = "Savings" ∧
    cleanup_description "*6227 26.02 NOK 30.00 COCA-COLA ENTERPRISES NOR Kurs: 1.0000" =
      "COCA-COLA ENTERPRISES NOR" ∧
    cleanup_description "sTeAm purchase 123" = "Steam" ∧
    cleanup_description "  hello  " = "hello" ∧
    (convert_transaction ⟨1, "A"⟩ kiwiCand none).map
      (fun p => (p.postingType, p.destName, p.amount)) =
      some (some PostingType.withdrawal, some "KIWI OSLO", 4250) := by decide

/-- C6, counterexample: the normalizer is not idempotent.  On the input
Fra: 12.02 KIWI the first application strips the Fra: label, exposing a
leading date that only the second application strips, so applying the
normalizer twice differs from applying it once. -/
theorem cleanup_not_idempotent :
    cleanup_description (cleanup_description "Fra: 12.02 KIWI") ≠
      cleanup_description "Fra: 12.02 KIWI" := by decide

/-- C6, amended: the normalizer is idempotent exactly on those inputs whose
normal form is left unchanged by the five stripping and replacement stages:
whenever the first five stages fix the normalized text, a second full
application (including the final trim) changes nothing. -/
theorem cleanup_idempotent_of_stages_fixed (s : List Char)
    (hfix : stages15 (cleanupDescription s) = cleanupDescription s) :
    cleanupDescription (cleanupDescription s) = cleanupDescription s := by
  show trimChars (stages15 (cleanupDescription s)) = cleanupDescription s
  rw [hfix]
  show trimChars (trimChars (stages15 s)) = trimChars (stages15 s)
  exact trimChars_trimChars _

/-- C6, witness: the normalized scenario text KIWI OSLO is fixed by the five
stages, so the normalizer is idempotent on that input. -/
theorem cleanup_idempotent_of_stages_fixed_witness :
    stages15 (cleanupDescription ("12.02 KIWI OSLO Betalt: 01.03.21").data) =
      cleanupDescription ("12.02 KIWI OSLO Betalt: 01.03.21").data ∧
    cleanupDescription (cleanupDescription ("12.02 KIWI OSLO Betalt: 01.03.21").data) =
      cleanupDescription ("12.02 KIWI OSLO Betalt: 01.03.21").data :=
  ⟨by decide, cleanup_idempotent_of_stages_fixed _ (by decide)⟩

/-- C3: for any matched pair of transfer candidates (opposite nonzero
amounts, identical date and text), the dedup loop builds exactly one posting
of kind Transfer whose source account is the account of the negative-amount
candidate, whose destination account is the account of the positive-amount
candidate, whose amount is the shared absolute value, and whose date and
description are the (shared) date and text of either side. -/
theorem transfer_posting_direction (a b : Trans) (accA accB : Account)
    (hchk : checkPair (a, b) = true) (hnz : a.amount ≠ 0)
    (hlen : 10 ≤ a.accountingDate.length) :
    ∃ p, convert_transaction accA a (some accB) = some p ∧
      p.postingType = some PostingType.transfer ∧
      p.sourceId = some (if a.amount < 0 then accA.id else accB.id) ∧
      p.destId = some (if a.amount < 0 then accB.id else accA.id) ∧
      p.amount = a.amount.natAbs ∧ p.amount = b.amount.natAbs ∧
      p.date = String.mk (a.accountingDate.data.take 10) ∧
      p.description = a.text ∧
      b.accountingDate = a.accountingDate ∧ b.text = a.text ∧
      (a.amount < 0 ∨ b.amount < 0) := by
  obtain ⟨hamt, htxt, hdat⟩ := checkPair_spec hchk
  have hab : a.amount = -b.amount := hamt
  have htx : a.text = b.text := htxt
  have hda : a.accountingDate = b.accountingDate := hdat
  simp only [convert_transaction]
  rw [if_pos hlen]
  refine ⟨_, rfl, ?_⟩
  by_cases hs : a.amount < 0
  · rw [if_pos hs, if_pos hs, if_pos hs]
    refine ⟨rfl, rfl, rfl, rfl, ?_, rfl, rfl, hda.symm, htx.symm, Or.inl hs⟩
    rw [show b.amount = -a.amount by omega, Int.natAbs_neg]
  · rw [if_neg hs, if_neg hs, if_neg hs]
    refine ⟨rfl, rfl, rfl, rfl, ?_, rfl, rfl, hda.symm, htx.symm, Or.inr (by omega)⟩
    rw [show b.amount = -a.amount by omega, Int.natAbs_neg]

/-- C3, witness: scenario 1, a minus-500 candidate on account A matched with
a plus-500 candidate on account B, yields a single transfer posting of
amount 500 from account 1 (A) to account 2 (B). -/
theorem transfer_posting_direction_witness :
    ∃ p, convert_transaction ⟨1, "A"⟩ (mkCand "A" (-500)) (some ⟨2, "B"⟩) = some p ∧
      p.postingType = some PostingType.transfer ∧ p.sourceId = some 1 ∧
      p.destId = some 2 ∧ p.amount = 500 := by
  obtain ⟨p, hp, h1, h2, h3, h4, _⟩ :=
    transfer_posting_direction (mkCand "A" (-500)) (mkCand "B" 500) ⟨1, "A"⟩ ⟨2, "B"⟩
      (by decide) (by decide) (by decide)
  have hneg : (mkCand "A" (-500)).amount < 0 := by decide
  rw [if_pos hneg] at h2 h3
  exact ⟨p, hp, h1, h2, h3, h4⟩

/-- C4: a transaction whose type code is one of OVFNETTB, MOB.B.OVF or
TILBAKEF. is classified as an internal-transfer candidate regardless of the
sign of its amount; for every other type code the classification depends
only on the sign: a negative amount yields a Withdrawal posting and a
non-negative amount (zero included) a Deposit posting. -/
theorem classification_rule (acc : Account) (t : Trans)
    (hlen : 10 ≤ t.accountingDate.length) :
    (isInternalType t.transactionType = true →
      handleTransaction acc t = some Handled.internal) ∧
    (isInternalType t.transactionType = false →
      ∃ p, handleTransaction acc t = some (Handled.posted p) ∧
        p.postingType = some (if t.amount < 0 then PostingType.withdrawal
          else PostingType.deposit)) ∧
    isInternalType t.transactionType =
      (t.transactionType == "OVFNETTB" || t.transactionType == "MOB.B.OVF" ||
        t.transactionType == "TILBAKEF.") := by
  refine ⟨fun h => by simp [handleTransaction, h, hlen], fun h => ?_, rfl⟩
  simp only [handleTransaction, h, Bool.false_eq_true, if_false, convert_transaction]
  rw [if_pos hlen]
  refine ⟨_, rfl, ?_⟩
  by_cases hs : t.amount < 0
  · rw [if_pos hs, if_pos hs]
  · rw [if_neg hs, if_neg hs]

/-- C4, witness: an OVFNETTB transaction is routed to deduplication, and a
negative VISA transaction becomes a Withdrawal posting. -/
theorem classification_rule_witness :
    handleTransaction ⟨1, "A"⟩ (mkCand "A" (-500)) = some Handled.internal ∧
    ∃ p, handleTransaction ⟨1, "A"⟩ kiwiCand = some (Handled.posted p) ∧
      p.postingType = some (if kiwiCand.amount < 0 then PostingType.withdrawal
        else PostingType.deposit) :=
  ⟨(classification_rule ⟨1, "A"⟩ (mkCand "A" (-500)) (by decide)).1 (by decide),
    (classification_rule ⟨1, "A"⟩ kiwiCand (by decide)).2.1 (by decide)⟩

/-- C10: the conversion and the candidate-logging dispatch slice the
accounting-date string to its first ten elements unconditionally.  When the
accounting date has at least ten characters (the chars of this model stand
for the bytes of the Rust string, which coincide on the ASCII timestamps of
the claimed precondition) the conversion succeeds and the posting date is
that ten-character prefix; when it is shorter, the slice panics and the
conversion and the dispatch both crash instead of skipping or reporting. -/
theorem accounting_date_slice (acc : Account) (t : Trans) (other : Option Account) :
    (t.accountingDate.length < 10 →
      convert_transaction acc t other = none ∧ handleTransaction acc t = none) ∧
    (10 ≤ t.accountingDate.length →
      (∃ p, convert_transaction acc t other = some p ∧
        p.date = String.mk (t.accountingDate.data.take 10)) ∧
      handleTransaction acc t ≠ none) := by
  constructor
  · intro hshort
    have hn : ¬10 ≤ t.accountingDate.length := by omega
    refine ⟨by simp [convert_transaction, hn], ?_⟩
    by_cases hint : isInternalType t.transactionType
    · simp [handleTransaction, hint, hn]
    · simp [handleTransaction, hint, convert_transaction, hn]
  · intro hlen
    constructor
    · simp only [convert_transaction]
      rw [if_pos hlen]
      refine ⟨_, rfl, ?_⟩
      by_cases hs : t.amount < 0
      · rw [if_pos hs]; cases other <;> rfl
      · rw [if_neg hs]; cases other <;> rfl
    · by_cases hint : isInternalType t.transactionType
      · simp [handleTransaction, hint, hlen]
      · by_cases hs : t.amount < 0 <;>
          simp [handleTransaction, hint, convert_transaction, hlen, hs]

/-- C10, witness: a four-character accounting date crashes the conversion,
while the scenario dates of ten characters convert with the sliced date. -/
theorem accounting_date_slice_witness :
    convert_transaction ⟨1, "A"⟩ shortDateCand none = none ∧
    ∃ p, convert_transaction ⟨1, "A"⟩ (mkCand "A" (-500)) none = some p ∧
      p.date = String.mk ((mkCand "A" (-500)).accountingDate.data.take 10) :=
  ⟨((accounting_date_slice ⟨1, "A"⟩ shortDateCand none).1 (by decide)).1,
    ((accounting_date_slice ⟨1, "A"⟩ (mkCand "A" (-500)) none).2 (by decide)).1⟩

theorem mem_yearRange {a b y : Int} : y ∈ yearRange a b ↔ a ≤ y ∧ y ≤ b := by
  simp only [yearRange, List.mem_map, List.mem_range]
  constructor
  · rintro ⟨i, hi, rfl⟩
    omega
  · rintro ⟨h1, h2⟩
    exact ⟨(y - a).toNat, by omega, by omega⟩

/-- C7: the orchestrator iterates exactly the calendar years from the
checkpoint's year (or the configured first year when there is no checkpoint)
through the year of today minus delayDays, and the fetch window for each
visited year has lower bound the checkpoint date (or January the 1st when
there is no checkpoint) for the first year and January the 1st otherwise,
and upper bound today minus delayDays for the last year and December the
31st otherwise. -/
theorem sync_plan_windows (cp : Option Date) (fy : Int) (lsd : Date) :
    (syncPlan cp fy lsd).map (fun e => e.1) =
      yearRange ((cp.map Date.year).getD fy) lsd.year ∧
    (∀ y lo hi, (y, lo, hi) ∈ syncPlan cp fy lsd →
      ((cp.map Date.year).getD fy ≤ y ∧ y ≤ lsd.year) ∧
      lo = (if y = (cp.map Date.year).getD fy then cp.getD (jan1 y) else jan1 y) ∧
      hi = (if y = lsd.year then lsd else dec31 y)) := by
  constructor
  · simp [syncPlan, List.map_map, Function.comp_def]
  · intro y lo hi hmem
    simp only [syncPlan, List.mem_map, Prod.mk.injEq] at hmem
    obtain ⟨y0, hy0, rfl, hlo, hhi⟩ := hmem
    exact ⟨mem_yearRange.mp hy0, hlo.symm, hhi.symm⟩

/-- C7, witness: scenario 4 with no checkpoint, first year 2019 and today
minus delayDays on 2021-05-01, instantiated at the last year 2021, whose
window is clipped to end at the last sync day. -/
theorem sync_plan_windows_witness :
    ((((none : Option Date)).map Date.year).getD 2019 ≤ (2021 : Int) ∧
      (2021 : Int) ≤ (Date.mk 2021 5 1).year) ∧
    jan1 2021 = (if (2021 : Int) = (((none : Option Date)).map Date.year).getD 2019 then
      (none : Option Date).getD (jan1 2021) else jan1 2021) ∧
    Date.mk 2021 5 1 = (if (2021 : Int) = (Date.mk 2021 5 1).year then Date.mk 2021 5 1
      else dec31 2021) :=
  (sync_plan_windows none 2019 (Date.mk 2021 5 1)).2 2021 (jan1 2021)
    (Date.mk 2021 5 1) (by decide)

/-- The fetch loop itself never writes the checkpoint. -/
theorem runPairs_no_write (env : Env) : ∀ pairs : List (Int × String),
    (runPairs env pairs).1.countP isWrite = 0
  | [] => rfl
  | (y, a) :: rest => by
    simp only [runPairs]
    cases env.fetch y a with
    | transportError => rfl
    | response isErr errMsg items =>
      by_cases he : isErr.getD true = true
      · cases errMsg with
        | some m => simp [he, runPairs_no_write env rest, isWrite, List.countP_cons]
        | none => simp [he, isWrite, List.countP_cons]
      · simp [he, runPairs_no_write env rest, isWrite, List.countP_cons]

/-- C8: when the previous checkpoint equals today minus delayDays the run is
a no-op with no fetches and no write; otherwise a successful run writes the
checkpoint exactly once, with value today minus delayDays, as its final
effect after all years completed, and a run that fails (a fatal fetch error)
performs no checkpoint write at all, leaving the stored checkpoint
unchanged. -/
theorem checkpoint_write_discipline (env : Env) :
    (env.checkpoint = some env.lastSyncDay → mainModel env = ([], true)) ∧
    (env.checkpoint ≠ some env.lastSyncDay →
      ((mainModel env).2 = true →
        (mainModel env).1.countP isWrite = 1 ∧
        (mainModel env).1.getLast? = some (Effect.wroteCheckpoint env.lastSyncDay)) ∧
      ((mainModel env).2 = false → (mainModel env).1.countP isWrite = 0)) := by
  constructor
  · intro h
    simp [mainModel, h]
  · intro h
    by_cases hr : (runPairs env (syncPairs env)).2 = true
    · constructor
      · intro _
        constructor
        · simp [mainModel, h, hr, List.countP_append, runPairs_no_write env (syncPairs env),
            isWrite, List.countP_cons]
        · simp [mainModel, h, hr, List.getLast?_concat]
      · intro hfail
        simp [mainModel, h, hr] at hfail
    · constructor
      · intro hok
        simp [mainModel, h, hr] at hok
      · intro _
        simp [mainModel, h, hr, runPairs_no_write env (syncPairs env)]

/-- C8, witness: a run whose checkpoint equals the last sync day is a no-op,
and an error-free run from an absent checkpoint ends with exactly one
checkpoint write, to the last sync day, as its final effect. -/
theorem checkpoint_write_discipline_witness :
    mainModel envNoop = ([], true) ∧
    (mainModel envOk).1.countP isWrite = 1 ∧
    (mainModel envOk).1.getLast? = some (Effect.wroteCheckpoint envOk.lastSyncDay) :=
  ⟨(checkpoint_write_discipline envNoop).1 (by decide),
    ((checkpoint_write_discipline envOk).2 (by decide)).1 (by decide)⟩

/-- C9, counterexample: a transaction-list response with isError true but no
errorMessage makes the skip branch unwrap a missing message: the run panics
and aborts after the failing fetch, account B is never visited, no skip
effect is emitted and the whole run ends in failure with no checkpoint
write, so a per-account fetch failure can abort the whole run. -/
theorem per_account_error_panics_on_missing_message :
    runPairs envPanic [((2021 : Int), "A"), ((2021 : Int), "B")] =
      ([Effect.fetched 2021 "A"], false) ∧
    mainModel envPanic = ([Effect.fetched 2021 "A"], false) := by decide

/-- C9, amended: a per-account transaction-list response whose isError flag
is true or absent and which carries an error message makes the loop skip
only that account's transactions for that window (a skip effect, no
processing effect) and continue with the remaining (year, account) pairs,
whose outcome, success flag included, is exactly what it would be without
the failed account; but when such a failure response carries no error
message the skip branch unwraps it, panics, and the whole run aborts after
that fetch. -/
theorem per_account_error_skipped (env : Env) (y : Int) (acct : String)
    (rest : List (Int × String)) (isErr : Option Bool) (errMsg : Option String)
    (items : List Trans)
    (hfetch : env.fetch y acct = FetchResult.response isErr errMsg items)
    (herr : isErr = some true ∨ isErr = none) :
    (∀ msg, errMsg = some msg →
      runPairs env ((y, acct) :: rest) =
        (Effect.fetched y acct :: Effect.skippedAccount y acct :: (runPairs env rest).1,
         (runPairs env rest).2)) ∧
    (errMsg = none →
      runPairs env ((y, acct) :: rest) = ([Effect.fetched y acct], false)) := by
  have he : isErr.getD true = true := by rcases herr with h | h <;> simp [h]
  constructor
  · intro msg hm
    simp [runPairs, hfetch, he, hm]
  · intro hm
    simp [runPairs, hfetch, he, hm]

/-- C9, witness: with account A reporting isError with a message and account
B healthy, the loop emits a skip for A and still processes B, finishing
successfully. -/
theorem per_account_error_skipped_witness :
    runPairs envErr [((2021 : Int), "A"), ((2021 : Int), "B")] =
      (Effect.fetched 2021 "A" :: Effect.skippedAccount 2021 "A" ::
        (runPairs envErr [((2021 : Int), "B")]).1,
       (runPairs envErr [((2021 : Int), "B")]).2) ∧
    runPairs envErr [((2021 : Int), "B")] =
      ([Effect.fetched 2021 "B", Effect.processedAccount 2021 "B"], true) :=
  ⟨(per_account_error_skipped envErr 2021 "A" [((2021 : Int), "B")] (some true)
      (some "boom") [] (by decide) (Or.inl rfl)).1 "boom" rfl,
    by decide⟩

end SB
